import Mathlib

/-!
Verification of the IQR outlier-detection core of the stroke-risk-analysis
repository (file stroke_risk_utils.py, functions detect_anomalies_iqr and
flag_anomalies).

The tabular data model is embedded shallowly:
a data frame is a list of column names, a parallel list of dtype flags
(true means a numeric dtype), and a list of rows, each row a list of cell
values aligned with the column list.  A cell is a rational number, a
missing value (NaN in a numeric column), or a categorical value.
Rationals replace IEEE floats; the quantile routine is the linear
interpolation between order statistics that pandas applies by default.
NaN propagation is modelled exactly where the two functions depend on it:
missing values are dropped before quantile computation, a quantile of an
empty column is NaN (here: none), and every comparison against NaN is
false, so rows with missing or undefined data are never selected.
Failures (KeyError from column lookup and from column restriction,
TypeError from quantile on a non-numeric column) are modelled with Except.
-/

/-- A cell of the table: a numeric value, a missing numeric value (NaN),
or a categorical value. -/
inductive Val where
  | num (q : ℚ)
  | nan
  | cat (s : String)
deriving DecidableEq, Repr

/-- The numeric content of a cell, if any. -/
def numOf : Val → Option ℚ
  | .num q => some q
  | _ => none

/-- The tabular dataset: column names, per-column numeric-dtype flags, and
rows aligned with the column list. -/
structure DataFrame where
  cols : List String
  dtypes : List Bool
  rows : List (List Val)
deriving DecidableEq, Repr

/-- A result table: column names and rows (the shape detect_anomalies_iqr
returns). -/
structure Table where
  cols : List String
  rows : List (List Val)
deriving DecidableEq, Repr

/-- Errors raised by the pandas operations the two functions use:
column lookup failure, column-restriction failure listing the labels not
found, and quantile on a non-numeric column. -/
inductive PdError where
  | keyError (name : String)
  | colsNotFound (names : List String)
  | typeError (name : String)
deriving DecidableEq, Repr

/-- Index of a column name in the column list. -/
def DataFrame.colIdx (df : DataFrame) (f : String) : Option Nat :=
  df.cols.findIdx? (· = f)

/-- The column of values under index j, one cell per row. -/
def DataFrame.colVals (df : DataFrame) (j : Nat) : List Val :=
  df.rows.map (fun r => r.getD j .nan)

/-- Linear interpolation between order statistics of a sorted list at a
fractional position h: with i the integer part of h, the value is
s i + (h - i) * (s (i+1) - s i), the index i+1 clamped to the list. -/
def interpAt (s : List ℚ) (h : ℚ) : ℚ :=
  let i := ⌊h⌋.toNat
  let lo := s.getD i 0
  let hi := s.getD (i + 1) lo
  lo + (h - (i : ℚ)) * (hi - lo)

/-- The p-quantile of a list of rationals by the linear-interpolation
method pandas uses by default: sort, place the probe at p * (n - 1), and
interpolate; none (NaN) when the list is empty. -/
def quantile (xs : List ℚ) (p : ℚ) : Option ℚ :=
  if xs.isEmpty then none
  else some (interpAt (xs.insertionSort (· ≤ ·)) (p * ((xs.length : ℚ) - 1)))

/-- The non-missing numeric entries of a column, as pandas dropna keeps
them before quantile computation. -/
def numsOf (vals : List Val) : List ℚ :=
  vals.filterMap numOf

/-- The IQR fence of a column: q1 - 1.5 * iqr and q3 + 1.5 * iqr with
iqr = q3 - q1; none (NaN bounds) when the column has no numeric entries. -/
def iqrBounds (vals : List Val) : Option (ℚ × ℚ) :=
  match quantile (numsOf vals) (1/4), quantile (numsOf vals) (3/4) with
  | some q1, some q3 => some (q1 - 3/2 * (q3 - q1), q3 + 3/2 * (q3 - q1))
  | _, _ => none

/-- The per-cell outlier test (value < lower) or (value > upper): false on
a missing value and false when the bounds are NaN, as comparisons against
NaN are false in pandas. -/
def isOutlier (b : Option (ℚ × ℚ)) (v : Val) : Bool :=
  match b, v with
  | some (lb, ub), .num q => decide (q < lb) || decide (ub < q)
  | _, _ => false

/-- One iteration of the detection loop body for one feature: none when
the feature is skipped (absent from the columns, or present with a
non-numeric dtype), otherwise the full rows whose value for the feature
is strictly outside the IQR fence. -/
def detectStep (df : DataFrame) (feature : String) : Option (List (List Val)) :=
  match df.colIdx feature with
  | none => none
  | some j =>
    if df.dtypes.getD j false then
      let b := iqrBounds (df.colVals j)
      some (df.rows.filter (fun r => isOutlier b (r.getD j .nan)))
    else none

/-- Row deduplication keeping the first occurrence of each row value, the
behaviour of drop_duplicates; seen accumulates the rows already kept. -/
def dropDupAux (seen : List (List Val)) : List (List Val) → List (List Val)
  | [] => []
  | r :: rs =>
    if r ∈ seen then dropDupAux seen rs
    else r :: dropDupAux (r :: seen) rs

/-- drop_duplicates on a list of rows: value-based, first occurrence kept. -/
def dropDuplicates (l : List (List Val)) : List (List Val) :=
  dropDupAux [] l

/-- The deduplicated concatenation of the per-feature anomalous full rows,
in scan order: exactly the rows of the concat + drop_duplicates stage of
detect_anomalies_iqr, before the restriction to the requested columns. -/
def detectSetRows (df : DataFrame) (features : List String) : List (List Val) :=
  dropDuplicates (features.filterMap (detectStep df)).flatten

/-- Restriction of a full row to the requested feature columns, in the
requested order (the column selection anomalies[features]). -/
def projectRow (df : DataFrame) (features : List String) (r : List Val) : List Val :=
  features.map (fun f =>
    match df.colIdx f with
    | some j => r.getD j .nan
    | none => .nan)

/-- The requested features absent from the data frame, in request order:
the labels a column restriction would report as not in index. -/
def missingFeatures (df : DataFrame) (features : List String) : List String :=
  features.filter (fun f => !df.cols.contains f)

/-- detect_anomalies_iqr: per feature, skip it when absent or non-numeric,
otherwise collect the rows strictly outside the IQR fence; every processed
feature appends its (possibly empty) anomaly frame to anomalies_list.
When anomalies_list stayed empty the result is an empty table whose
columns are the requested feature list; otherwise the collected frames are
concatenated, deduplicated, and restricted to the requested columns, a
restriction that raises KeyError when a requested feature is absent. -/
def detect_anomalies_iqr (df : DataFrame) (features : List String) :
    Except PdError Table :=
  if (features.filterMap (detectStep df)).isEmpty then
    .ok ⟨features, []⟩
  else if (missingFeatures df features).isEmpty then
    .ok ⟨features, (detectSetRows df features).map (projectRow df features)⟩
  else
    .error (.colsNotFound (missingFeatures df features))

/-- One iteration of the flagging loop body for one feature: KeyError when
the feature is absent (the lookup df[feature] fails), TypeError when its
column is not numeric (quantile is undefined there), otherwise the per-row
outlier mask for this feature. -/
def flagStep (df : DataFrame) (feature : String) : Except PdError (List Bool) :=
  match df.colIdx feature with
  | none => .error (.keyError feature)
  | some j =>
    if df.dtypes.getD j false then
      .ok ((df.colVals j).map (isOutlier (iqrBounds (df.colVals j))))
    else .error (.typeError feature)

/-- The flagging loop: OR-accumulate each feature mask onto acc, stopping
at the first error. -/
def flagLoop (df : DataFrame) (acc : List Bool) :
    List String → Except PdError (List Bool)
  | [] => .ok acc
  | f :: fs =>
    match flagStep df f with
    | .ok fa => flagLoop df (acc.zipWith (· || ·) fa) fs
    | .error e => .error e

/-- flag_anomalies: start from the all-false mask over the rows and
OR-accumulate the per-feature outlier masks in request order. -/
def flag_anomalies (df : DataFrame) (features : List String) :
    Except PdError (List Bool) :=
  flagLoop df (df.rows.map (fun _ => false)) features

/-- The outlier flag of row i for one feature, as a standalone value:
false when the feature is absent. -/
def flagOf (df : DataFrame) (f : String) (i : Nat) : Bool :=
  match df.colIdx f with
  | some j => isOutlier (iqrBounds (df.colVals j)) ((df.rows.getD i []).getD j .nan)
  | none => false

/-- Whether a feature is present with a numeric dtype (the situation in
which both functions actually compute a mask for it). -/
def presentNumeric (df : DataFrame) (f : String) : Bool :=
  match df.colIdx f with
  | some j => df.dtypes.getD j false
  | none => false

/-- Whether one step of the flagging loop succeeds for a feature. -/
def flagStepOk (df : DataFrame) (f : String) : Bool :=
  match flagStep df f with
  | .ok _ => true
  | .error _ => false

/-- Concrete five-row frame with the single numeric feature v holding
1, 2, 3, 4, 100. -/
def dfA : DataFrame :=
  ⟨["v"], [true], [[.num 1], [.num 2], [.num 3], [.num 4], [.num 100]]⟩

/-- Concrete frame with a numeric feature v and a categorical feature c. -/
def dfB : DataFrame :=
  ⟨["v", "c"], [true, false],
    [[.num 1, .cat "a"], [.num 2, .cat "b"], [.num 3, .cat "a"],
     [.num 4, .cat "b"], [.num 100, .cat "a"]]⟩

/-- Concrete frame whose single numeric column is all-missing. -/
def dfN : DataFrame :=
  ⟨["v"], [true], [[.nan], [.nan]]⟩

/-- Concrete frame with the numeric feature v holding 5, 5, 5, 5, 6. -/
def dfE : DataFrame :=
  ⟨["v"], [true], [[.num 5], [.num 5], [.num 5], [.num 5], [.num 6]]⟩

/-! ### Helper lemmas about list access -/

theorem getD_map_at {α β : Type} (f : α → β) (l : List α) {i : Nat}
    (hi : i < l.length) (d : α) (d₂ : β) :
    (l.map f).getD i d₂ = f (l.getD i d) := by
  rw [List.getD_eq_getElem _ _ (by simpa using hi), List.getD_eq_getElem _ _ hi,
    List.getElem_map]

theorem getD_zipWith_at (g : Bool → Bool → Bool) (l₁ l₂ : List Bool) {i : Nat}
    (h₁ : i < l₁.length) (h₂ : i < l₂.length) :
    (List.zipWith g l₁ l₂).getD i false = g (l₁.getD i false) (l₂.getD i false) := by
  induction l₁ generalizing l₂ i with
  | nil => simp at h₁
  | cons a as ih =>
    cases l₂ with
    | nil => simp at h₂
    | cons b bs =>
      cases i with
      | zero => rfl
      | succ n =>
        simp only [List.zipWith_cons_cons, List.getD_cons_succ]
        exact ih bs (by simpa using h₁) (by simpa using h₂)

/-! ### Deduplication lemmas -/

theorem mem_dropDupAux (x : List Val) :
    ∀ (l seen : List (List Val)), x ∈ dropDupAux seen l ↔ x ∈ l ∧ x ∉ seen := by
  intro l
  induction l with
  | nil => simp [dropDupAux]
  | cons r rs ih =>
    intro seen
    by_cases hr : r ∈ seen
    · rw [dropDupAux, if_pos hr, ih seen]
      constructor
      · rintro ⟨hx, hxs⟩; exact ⟨List.mem_cons_of_mem _ hx, hxs⟩
      · rintro ⟨hx, hxs⟩
        rcases List.mem_cons.1 hx with rfl | hx
        · exact absurd hr hxs
        · exact ⟨hx, hxs⟩
    · rw [dropDupAux, if_neg hr]
      constructor
      · intro hx
        rcases List.mem_cons.1 hx with rfl | hx
        · exact ⟨List.mem_cons_self _ _, hr⟩
        · obtain ⟨h1, h2⟩ := (ih (r :: seen)).1 hx
          exact ⟨List.mem_cons_of_mem _ h1,
            fun hs => h2 (List.mem_cons_of_mem _ hs)⟩
      · rintro ⟨hx, hxs⟩
        rcases List.mem_cons.1 hx with rfl | hx
        · exact List.mem_cons_self _ _
        · by_cases hxr : x = r
          · exact hxr ▸ List.mem_cons_self _ _
          · exact List.mem_cons_of_mem _ ((ih (r :: seen)).2
              ⟨hx, fun hs => (List.mem_cons.1 hs).elim hxr hxs⟩)

theorem nodup_dropDupAux : ∀ (l seen : List (List Val)), (dropDupAux seen l).Nodup := by
  intro l
  induction l with
  | nil => intro seen; simp [dropDupAux]
  | cons r rs ih =>
    intro seen
    by_cases hr : r ∈ seen
    · rw [dropDupAux, if_pos hr]; exact ih seen
    · rw [dropDupAux, if_neg hr]
      refine List.nodup_cons.2 ⟨fun hmem => ?_, ih (r :: seen)⟩
      exact ((mem_dropDupAux r rs (r :: seen)).1 hmem).2 (List.mem_cons_self _ _)

theorem mem_dropDuplicates (x : List Val) (l : List (List Val)) :
    x ∈ dropDuplicates l ↔ x ∈ l := by
  rw [dropDuplicates, mem_dropDupAux]
  simp

theorem nodup_dropDuplicates (l : List (List Val)) : (dropDuplicates l).Nodup :=
  nodup_dropDupAux l []

/-! ### Facts about the detection scan -/

theorem mem_detectSetRows (df : DataFrame) (features : List String) (r : List Val) :
    r ∈ detectSetRows df features ↔
      ∃ f ∈ features, ∃ rs, detectStep df f = some rs ∧ r ∈ rs := by
  rw [detectSetRows, mem_dropDuplicates]
  simp only [List.mem_flatten, List.mem_filterMap]
  constructor
  · rintro ⟨l, ⟨f, hf, hl⟩, hr⟩; exact ⟨f, hf, l, hl, hr⟩
  · rintro ⟨f, hf, l, hl, hr⟩; exact ⟨l, ⟨f, hf, hl⟩, hr⟩

theorem detect_ok_of_all_present (df : DataFrame) (features : List String)
    (h : ∀ f ∈ features, f ∈ df.cols) :
    detect_anomalies_iqr df features =
      .ok ⟨features, (detectSetRows df features).map (projectRow df features)⟩ := by
  have hmiss : missingFeatures df features = [] := by
    refine List.filter_eq_nil_iff.2 fun f hf => ?_
    simp [h f hf]
  rw [detect_anomalies_iqr]
  by_cases he : (features.filterMap (detectStep df)).isEmpty
  · rw [if_pos he]
    have hrows : detectSetRows df features = [] := by
      rw [detectSetRows, List.isEmpty_iff.1 he]
      rfl
    rw [hrows]
    rfl
  · rw [if_neg he, hmiss]
    rfl

/-! ### Facts about the flagging loop -/

theorem flagStep_of_presentNumeric (df : DataFrame) (f : String)
    (h : presentNumeric df f = true) :
    ∃ m, flagStep df f = .ok m ∧ m.length = df.rows.length ∧
      ∀ i, i < df.rows.length → m.getD i false = flagOf df f i := by
  cases hj : df.colIdx f with
  | none => rw [presentNumeric, hj] at h; exact absurd h (by simp)
  | some j =>
    rw [presentNumeric, hj] at h
    have hd : df.dtypes.getD j false = true := by simpa using h
    have hstep : flagStep df f =
        .ok ((df.colVals j).map (isOutlier (iqrBounds (df.colVals j)))) := by
      simp only [flagStep, hj]
      rw [hd]
      simp
    refine ⟨_, hstep, ?_, ?_⟩
    · simp [DataFrame.colVals]
    · intro i hi
      have hlen : i < (df.colVals j).length := by
        simpa [DataFrame.colVals] using hi
      rw [getD_map_at _ _ hlen Val.nan false]
      simp only [flagOf, hj, DataFrame.colVals, getD_map_at _ _ hi ([] : List Val) Val.nan]

theorem flagLoop_ok (df : DataFrame) (fs : List String) :
    ∀ acc : List Bool, acc.length = df.rows.length →
      (∀ f ∈ fs, presentNumeric df f = true) →
      ∃ m, flagLoop df acc fs = .ok m ∧ m.length = df.rows.length ∧
        ∀ i, i < df.rows.length →
          m.getD i false = (acc.getD i false || fs.any (fun f => flagOf df f i)) := by
  induction fs with
  | nil =>
    intro acc hlen _
    exact ⟨acc, rfl, hlen, fun i _ => by simp⟩
  | cons f fs ih =>
    intro acc hlen hall
    obtain ⟨mf, hmf, hmflen, hmfval⟩ :=
      flagStep_of_presentNumeric df f (hall f (List.mem_cons_self _ _))
    have hzip : (acc.zipWith (· || ·) mf).length = df.rows.length := by
      rw [List.length_zipWith, hlen, hmflen]
      exact Nat.min_self _
    obtain ⟨m, hm, hmlen, hmval⟩ := ih (acc.zipWith (· || ·) mf) hzip
      (fun g hg => hall g (List.mem_cons_of_mem _ hg))
    refine ⟨m, ?_, hmlen, ?_⟩
    · rw [flagLoop, hmf]
      exact hm
    · intro i hi
      rw [hmval i hi,
        getD_zipWith_at _ _ _ (hlen ▸ hi) (hmflen ▸ hi), hmfval i hi]
      simp [Bool.or_assoc]

/-! ### Order facts about quantiles -/

theorem sorted_getD_le (s : List ℚ) (hs : s.Sorted (· ≤ ·)) {i j : Nat}
    (hij : i ≤ j) (hj : j < s.length) : s.getD i 0 ≤ s.getD j 0 := by
  have hi : i < s.length := lt_of_le_of_lt hij hj
  rw [List.getD_eq_getElem _ _ hi, List.getD_eq_getElem _ _ hj]
  have h := hs.rel_get_of_le (a := ⟨i, hi⟩) (b := ⟨j, hj⟩) hij
  simpa using h

theorem interpAt_mono (s : List ℚ) (hs : s.Sorted (· ≤ ·)) {a b : ℚ}
    (ha : 0 ≤ a) (hab : a ≤ b) (hb : b ≤ (s.length : ℚ) - 1) :
    interpAt s a ≤ interpAt s b := by
  have hb0 : 0 ≤ b := le_trans ha hab
  simp only [interpAt]
  set i := ⌊a⌋.toNat with hidef
  set j := ⌊b⌋.toNat with hjdef
  have hcasti : ((i : ℕ) : ℚ) = (⌊a⌋ : ℚ) := by
    rw [hidef]
    exact_mod_cast Int.toNat_of_nonneg (Int.floor_nonneg.2 ha)
  have hcastj : ((j : ℕ) : ℚ) = (⌊b⌋ : ℚ) := by
    rw [hjdef]
    exact_mod_cast Int.toNat_of_nonneg (Int.floor_nonneg.2 hb0)
  have hia : (i : ℚ) ≤ a := by rw [hcasti]; exact Int.floor_le a
  have hai : a < (i : ℚ) + 1 := by rw [hcasti]; exact Int.lt_floor_add_one a
  have hjb : (j : ℚ) ≤ b := by rw [hcastj]; exact Int.floor_le b
  have hij : i ≤ j := by
    rw [hidef, hjdef]
    exact Int.toNat_le_toNat (Int.floor_le_floor hab)
  have hjn : j < s.length := by
    have h1 : (j : ℚ) ≤ (s.length : ℚ) - 1 := le_trans hjb hb
    have h2 : (j : ℚ) < (s.length : ℚ) := by linarith
    exact_mod_cast h2
  have hin : i < s.length := lt_of_le_of_lt hij hjn
  have hlohiB : s.getD j 0 ≤ s.getD (j + 1) (s.getD j 0) := by
    by_cases hj1 : j + 1 < s.length
    · rw [List.getD_eq_getElem _ _ hj1, ← List.getD_eq_getElem s 0 hj1]
      exact sorted_getD_le s hs (Nat.le_succ j) hj1
    · rw [List.getD_eq_default _ _ (Nat.le_of_not_lt hj1)]
  rcases eq_or_lt_of_le hij with heq | hlt
  · rw [← heq]
    have hd : (0 : ℚ) ≤ s.getD (i + 1) (s.getD i 0) - s.getD i 0 := by
      rw [heq]
      exact sub_nonneg.2 hlohiB
    have hm := mul_le_mul_of_nonneg_right (sub_le_sub_right hab (i : ℚ)) hd
    linarith
  · have hlohiA : s.getD i 0 ≤ s.getD (i + 1) (s.getD i 0) := by
      have hi1 : i + 1 < s.length := lt_of_le_of_lt hlt hjn
      rw [List.getD_eq_getElem _ _ hi1, ← List.getD_eq_getElem s 0 hi1]
      exact sorted_getD_le s hs (Nat.le_succ i) hi1
    have hupA : s.getD i 0 + (a - (i : ℚ)) * (s.getD (i + 1) (s.getD i 0) - s.getD i 0) ≤
        s.getD (i + 1) (s.getD i 0) := by
      have hm := mul_le_mul_of_nonneg_right (le_of_lt (by linarith : a - (i : ℚ) < 1))
        (sub_nonneg.2 hlohiA)
      linarith
    have hi1 : i + 1 < s.length := lt_of_le_of_lt hlt hjn
    have hmidA : s.getD (i + 1) (s.getD i 0) = s.getD (i + 1) 0 := by
      rw [List.getD_eq_getElem _ _ hi1, List.getD_eq_getElem _ _ hi1]
    have hmid : s.getD (i + 1) 0 ≤ s.getD j 0 := sorted_getD_le s hs hlt hjn
    have hloB : s.getD j 0 ≤ s.getD j 0 + (b - (j : ℚ)) *
        (s.getD (j + 1) (s.getD j 0) - s.getD j 0) := by
      have hm := mul_nonneg (by linarith : (0 : ℚ) ≤ b - (j : ℚ)) (sub_nonneg.2 hlohiB)
      linarith
    linarith

theorem quantile_le_quantile (xs : List ℚ) {p₁ p₂ : ℚ} (h0 : 0 ≤ p₁) (h12 : p₁ ≤ p₂)
    (h21 : p₂ ≤ 1) {q₁ q₂ : ℚ} (hq₁ : quantile xs p₁ = some q₁)
    (hq₂ : quantile xs p₂ = some q₂) : q₁ ≤ q₂ := by
  rw [quantile] at hq₁ hq₂
  by_cases hxs : xs.isEmpty
  · rw [if_pos hxs] at hq₁
    exact absurd hq₁ (by simp)
  · rw [if_neg hxs] at hq₁ hq₂
    have e₁ := Option.some.inj hq₁
    have e₂ := Option.some.inj hq₂
    rw [← e₁, ← e₂]
    have hne : xs ≠ [] := fun hn => hxs (by simp [hn])
    have hn : 1 ≤ (xs.length : ℚ) := by
      have hp := List.length_pos.2 hne
      exact_mod_cast hp
    have hslen : (xs.insertionSort (· ≤ ·)).length = xs.length :=
      (List.perm_insertionSort _ xs).length_eq
    apply interpAt_mono _ (List.sorted_insertionSort _ xs)
    · exact mul_nonneg h0 (by linarith)
    · exact mul_le_mul_of_nonneg_right h12 (by linarith)
    · rw [hslen]
      have hm : p₂ * ((xs.length : ℚ) - 1) ≤ 1 * ((xs.length : ℚ) - 1) :=
        mul_le_mul_of_nonneg_right h21 (by linarith)
      linarith

theorem iqrBounds_spec (vals : List Val) {lb ub : ℚ}
    (hb : iqrBounds vals = some (lb, ub)) :
    ∃ q₁ q₃, quantile (numsOf vals) (1/4) = some q₁ ∧
      quantile (numsOf vals) (3/4) = some q₃ ∧
      lb = q₁ - 3/2 * (q₃ - q₁) ∧ ub = q₃ + 3/2 * (q₃ - q₁) ∧ q₁ ≤ q₃ := by
  rw [iqrBounds] at hb
  cases h1 : quantile (numsOf vals) (1/4) with
  | none => rw [h1] at hb; exact absurd hb (by simp)
  | some q₁ =>
    cases h3 : quantile (numsOf vals) (3/4) with
    | none =>
      simp only [h1, h3] at hb
      exact absurd hb (by simp)
    | some q₃ =>
      simp only [h1, h3, Option.some.injEq, Prod.mk.injEq] at hb
      have hq : q₁ ≤ q₃ :=
        quantile_le_quantile _ (by norm_num) (by norm_num) (by norm_num) h1 h3
      exact ⟨q₁, q₃, rfl, rfl, hb.1.symm, hb.2.symm, hq⟩

/-! ### Small facts about the outlier test and the step functions -/

theorem isOutlier_none (v : Val) : isOutlier none v = false := by
  cases v <;> rfl

theorem isOutlier_num_iff (lb ub q : ℚ) :
    isOutlier (some (lb, ub)) (.num q) = true ↔ (q < lb ∨ ub < q) := by
  simp [isOutlier]

theorem isOutlier_nan (b : Option (ℚ × ℚ)) : isOutlier b .nan = false := by
  cases b with
  | none => rfl
  | some p => cases p; rfl

theorem exists_num_of_isOutlier {b : Option (ℚ × ℚ)} {v : Val}
    (h : isOutlier b v = true) : ∃ q, v = Val.num q := by
  cases b with
  | none => rw [isOutlier_none] at h; exact absurd h (by simp)
  | some p =>
    obtain ⟨l, u⟩ := p
    cases v with
    | num q => exact ⟨q, rfl⟩
    | nan => simp [isOutlier] at h
    | cat s => simp [isOutlier] at h

theorem detectStep_some_elim {df : DataFrame} {f : String} {j : Nat}
    {rs : List (List Val)} (hj : df.colIdx f = some j)
    (h : detectStep df f = some rs) :
    df.dtypes.getD j false = true ∧
    rs = df.rows.filter
      (fun r => isOutlier (iqrBounds (df.colVals j)) (r.getD j .nan)) := by
  simp only [detectStep, hj] at h
  by_cases hd : df.dtypes.getD j false = true
  · rw [if_pos hd] at h
    exact ⟨hd, (Option.some.inj h).symm⟩
  · rw [if_neg hd] at h
    exact absurd h (by simp)

theorem flagStep_ok_elim {df : DataFrame} {f : String} {j : Nat}
    {m : List Bool} (hj : df.colIdx f = some j)
    (h : flagStep df f = .ok m) :
    df.dtypes.getD j false = true ∧
    m = (df.colVals j).map (isOutlier (iqrBounds (df.colVals j))) := by
  simp only [flagStep, hj] at h
  by_cases hd : df.dtypes.getD j false = true
  · rw [if_pos hd] at h
    exact ⟨hd, (Except.ok.inj h).symm⟩
  · rw [if_neg hd] at h
    exact Except.noConfusion h

/-! ### C1 -/

/-- C1: detection mode, restricted to the situations in which the final
column restriction cannot fail (every requested feature present in the
data frame).  The returned table has exactly the requested columns, its
rows are the first-detection-ordered deduplication of the per-feature
anomalous full rows restricted to the requested columns, the underlying
full-row collection has no duplicates and is exactly the union of the
per-feature anomalous row sets, and when every feature was skipped or no
feature produced anomalies the table has zero rows. -/
theorem detect_returns_requested_schema_and_union (df : DataFrame)
    (features : List String) (h : ∀ f ∈ features, f ∈ df.cols) :
    ∃ t, detect_anomalies_iqr df features = .ok t ∧
      t.cols = features ∧
      t.rows = (detectSetRows df features).map (projectRow df features) ∧
      (detectSetRows df features).Nodup ∧
      (∀ r, r ∈ detectSetRows df features ↔
        ∃ f ∈ features, ∃ rs, detectStep df f = some rs ∧ r ∈ rs) ∧
      ((∀ f ∈ features, ∀ rs, detectStep df f = some rs → rs = []) →
        t.rows = []) := by
  refine ⟨_, detect_ok_of_all_present df features h, rfl, rfl,
    nodup_dropDuplicates _, fun r => mem_detectSetRows df features r, ?_⟩
  intro hempty
  have hnil : detectSetRows df features = [] := by
    refine List.eq_nil_iff_forall_not_mem.2 fun r hr => ?_
    obtain ⟨f, hf, rs, hrs, hrrs⟩ := (mem_detectSetRows df features r).1 hr
    rw [hempty f hf rs hrs] at hrrs
    exact absurd hrrs (List.not_mem_nil r)
  show (detectSetRows df features).map (projectRow df features) = []
  rw [hnil]
  rfl

/-- Witness for C1 at the concrete five-row frame. -/
theorem detect_returns_requested_schema_and_union_witness :
    (∀ f ∈ ["v"], f ∈ dfA.cols) ∧
    (∃ t, detect_anomalies_iqr dfA ["v"] = .ok t ∧
      t.cols = ["v"] ∧
      t.rows = (detectSetRows dfA ["v"]).map (projectRow dfA ["v"]) ∧
      (detectSetRows dfA ["v"]).Nodup ∧
      (∀ r, r ∈ detectSetRows dfA ["v"] ↔
        ∃ f ∈ ["v"], ∃ rs, detectStep dfA f = some rs ∧ r ∈ rs) ∧
      ((∀ f ∈ ["v"], ∀ rs, detectStep dfA f = some rs → rs = []) →
        t.rows = [])) :=
  ⟨by decide, detect_returns_requested_schema_and_union dfA ["v"] (by decide)⟩

/-- C1 counterexample: with an absent feature mixed into a list that also
holds a processed numeric feature, detection raises a KeyError instead of
returning a table. -/
theorem detect_error_on_missing_mixed :
    detect_anomalies_iqr dfA ["missing", "v"] = .error (.colsNotFound ["missing"]) := by
  with_unfolding_all rfl

/-! ### C4 -/

/-- C4: detection completes normally, skipping bad features, whenever
every requested feature is present in the data frame (skips then come
only from non-numeric features) or every requested feature was skipped;
the returned table has exactly the requested columns. -/
theorem detect_skips_bad_features (df : DataFrame) (features : List String)
    (h : (∀ f ∈ features, f ∈ df.cols) ∨
      features.filterMap (detectStep df) = []) :
    ∃ t, detect_anomalies_iqr df features = .ok t ∧ t.cols = features := by
  rcases h with h | h
  · exact ⟨_, detect_ok_of_all_present df features h, rfl⟩
  · refine ⟨⟨features, []⟩, ?_, rfl⟩
    rw [detect_anomalies_iqr, if_pos (by rw [h]; rfl)]

/-- Witness for C4: a list mixing a skipped non-numeric feature with a
numeric feature that does produce anomalies completes normally. -/
theorem detect_skips_bad_features_witness :
    ((∀ f ∈ ["c", "v"], f ∈ dfB.cols) ∨
      List.filterMap (detectStep dfB) ["c", "v"] = []) ∧
    (∃ t, detect_anomalies_iqr dfB ["c", "v"] = .ok t ∧ t.cols = ["c", "v"]) :=
  ⟨Or.inl (by decide), detect_skips_bad_features dfB ["c", "v"] (Or.inl (by decide))⟩

/-- C4 counterexample: an absent feature is skipped during the loop, but
when at least one other feature was processed the final column restriction
raises a KeyError, so the scan does not complete normally. -/
theorem detect_aborts_on_missing_mixed :
    detect_anomalies_iqr dfB ["c", "missing", "v"] =
      .error (.colsNotFound ["missing"]) := by
  with_unfolding_all rfl

/-! ### C9 -/

/-- C9: union semantics at the level of the underlying full-row anomaly
collection: every row detected for a feature list is still detected after
a feature is appended to the list. -/
theorem detect_union_monotone (df : DataFrame) (fs : List String) (f : String)
    (r : List Val) (h : r ∈ detectSetRows df fs) :
    r ∈ detectSetRows df (fs ++ [f]) := by
  obtain ⟨g, hg, rs, hrs, hr⟩ := (mem_detectSetRows df fs r).1 h
  exact (mem_detectSetRows df (fs ++ [f]) r).2
    ⟨g, List.mem_append_left _ hg, rs, hrs, hr⟩

/-- Witness for C9: the detected row of the five-row frame stays in the
collection when a further (here: absent) feature is appended. -/
theorem detect_union_monotone_witness :
    [Val.num 100] ∈ detectSetRows dfA ["v"] ∧
    [Val.num 100] ∈ detectSetRows dfA (["v"] ++ ["missing"]) :=
  ⟨by rw [show detectSetRows dfA ["v"] = [[Val.num 100]] from by with_unfolding_all rfl]
      exact List.mem_singleton.2 rfl,
   detect_union_monotone dfA ["v"] "missing" [Val.num 100]
    (by rw [show detectSetRows dfA ["v"] = [[Val.num 100]] from by with_unfolding_all rfl]
        exact List.mem_singleton.2 rfl)⟩

/-- C9 counterexample: the claim fails at the level of returned tables,
because appending an absent feature makes the call raise instead of
returning a superset table. -/
theorem detect_extension_error :
    detect_anomalies_iqr dfA ["v"] = .ok ⟨["v"], [[.num 100]]⟩ ∧
    detect_anomalies_iqr dfA ["v", "missing"] =
      .error (.colsNotFound ["missing"]) := by
  constructor
  · with_unfolding_all rfl
  · with_unfolding_all rfl

/-! ### C2 -/

/-- C2: for a feature list whose entries are all present and numeric,
flag_anomalies succeeds with a boolean mask of length equal to the row
count, in row order, and an entry is true exactly when the row is outside
the IQR fence of at least one requested feature (the closed form of the
OR-accumulating fold from the all-false mask). -/
theorem flag_mask_or_accumulation (df : DataFrame) (features : List String)
    (h : ∀ f ∈ features, presentNumeric df f = true) :
    ∃ m, flag_anomalies df features = .ok m ∧
      m.length = df.rows.length ∧
      ∀ i, i < df.rows.length →
        m.getD i false = features.any (fun f => flagOf df f i) := by
  obtain ⟨m, hm, hlen, hval⟩ := flagLoop_ok df features (df.rows.map (fun _ => false))
    (by simp) h
  refine ⟨m, hm, hlen, fun i hi => ?_⟩
  rw [hval i hi, getD_map_at _ _ hi [] false]
  simp

/-- Witness for C2 at the concrete five-row frame. -/
theorem flag_mask_or_accumulation_witness :
    (∀ f ∈ ["v"], presentNumeric dfA f = true) ∧
    (∃ m, flag_anomalies dfA ["v"] = .ok m ∧
      m.length = dfA.rows.length ∧
      ∀ i, i < dfA.rows.length →
        m.getD i false = List.any ["v"] (fun f => flagOf dfA f i)) :=
  ⟨by decide, flag_mask_or_accumulation dfA ["v"] (by decide)⟩

/-! ### C3 -/

/-- C3: the five-row scenario with values 1, 2, 3, 4, 100: Q1 is 2, Q3 is
4, the fence is (-1, 7), detection returns exactly the row holding 100,
and flagging returns the mask false, false, false, false, true. -/
theorem scenario_five_rows_single_feature :
    quantile [1, 2, 3, 4, 100] (1/4) = some 2 ∧
    quantile [1, 2, 3, 4, 100] (3/4) = some 4 ∧
    iqrBounds [Val.num 1, .num 2, .num 3, .num 4, .num 100] = some (-1, 7) ∧
    detect_anomalies_iqr dfA ["v"] = .ok ⟨["v"], [[.num 100]]⟩ ∧
    flag_anomalies dfA ["v"] = .ok [false, false, false, false, true] := by
  refine ⟨?_, ?_, ?_, ?_, ?_⟩ <;> with_unfolding_all rfl

/-! ### C5 -/

/-- C5: when the first invalid feature of the list is one absent from the
data frame (every feature before it passes its flagging step), flagging
raises the lookup error carrying that feature name; and detection returns
the empty table with exactly the requested columns provided every
requested feature was skipped. -/
theorem flag_raises_detect_empty_on_missing (df : DataFrame)
    (pre post : List String) (f : String)
    (hpre : ∀ g ∈ pre, flagStepOk df g = true)
    (hf : df.colIdx f = none) :
    flag_anomalies df (pre ++ f :: post) = .error (.keyError f) ∧
    ((pre ++ f :: post).filterMap (detectStep df) = [] →
      detect_anomalies_iqr df (pre ++ f :: post) =
        .ok ⟨pre ++ f :: post, []⟩) := by
  constructor
  · rw [flag_anomalies]
    have hloop : ∀ (gs : List String), (∀ g ∈ gs, flagStepOk df g = true) →
        ∀ acc : List Bool,
          flagLoop df acc (gs ++ f :: post) = .error (.keyError f) := by
      intro gs
      induction gs with
      | nil =>
        intro _ acc
        have hstep : flagStep df f = .error (.keyError f) := by
          simp [flagStep, hf]
        rw [List.nil_append, flagLoop, hstep]
      | cons g gs ih =>
        intro hall acc
        have hok : flagStepOk df g = true := hall g (List.mem_cons_self _ _)
        rw [flagStepOk] at hok
        cases hg : flagStep df g with
        | error e => rw [hg] at hok; exact absurd hok (by simp)
        | ok mg =>
          rw [List.cons_append, flagLoop, hg]
          exact ih (fun x hx => hall x (List.mem_cons_of_mem _ hx)) _
    exact hloop pre hpre _
  · intro hskip
    rw [detect_anomalies_iqr, if_pos (by rw [hskip]; rfl)]

/-- Witness for C5 with the list holding only the absent feature. -/
theorem flag_raises_detect_empty_on_missing_witness :
    (∀ g ∈ ([] : List String), flagStepOk dfA g = true) ∧
    dfA.colIdx "missing" = none ∧
    (flag_anomalies dfA ([] ++ "missing" :: []) = .error (.keyError "missing") ∧
      (([] ++ "missing" :: []).filterMap (detectStep dfA) = [] →
        detect_anomalies_iqr dfA ([] ++ "missing" :: []) =
          .ok ⟨[] ++ "missing" :: [], []⟩)) :=
  ⟨by decide, by decide,
    flag_raises_detect_empty_on_missing dfA [] [] "missing" (by decide) (by decide)⟩

/-- C5 counterexample: with the absent feature mixed after a processed
numeric feature, detection does not return the empty table with the
requested schema; it raises a KeyError. -/
theorem detect_not_empty_table_on_missing :
    detect_anomalies_iqr dfA ["v", "missing"] ≠
      .ok ⟨["v", "missing"], []⟩ := by
  rw [show detect_anomalies_iqr dfA ["v", "missing"] =
    .error (.colsNotFound ["missing"]) from by with_unfolding_all rfl]
  intro hcon
  exact Except.noConfusion hcon

/-! ### C6 -/

/-- C6: on a present numeric feature whose column is empty after removing
missing values, the scan does not fail fast: the quantile is NaN (none),
the detection step returns an empty anomaly frame, and the flagging step
returns the all-false mask, silently producing an all-clear result. -/
theorem empty_column_silent_all_clear (df : DataFrame) (f : String) (j : Nat)
    (hj : df.colIdx f = some j) (hd : df.dtypes.getD j false = true)
    (hempty : numsOf (df.colVals j) = []) :
    quantile (numsOf (df.colVals j)) (1/4) = none ∧
    detectStep df f = some [] ∧
    flagStep df f = .ok (df.rows.map (fun _ => false)) := by
  have hq : quantile (numsOf (df.colVals j)) (1/4) = none := by
    rw [hempty]
    rfl
  have hbounds : iqrBounds (df.colVals j) = none := by
    rw [iqrBounds, numsOf] at *
    rw [show quantile (List.filterMap numOf (df.colVals j)) (1/4) = none from hq]
  refine ⟨hq, ?_, ?_⟩
  · have hfilter : df.rows.filter
        (fun r => isOutlier (iqrBounds (df.colVals j)) (r.getD j .nan)) = [] := by
      refine List.filter_eq_nil_iff.2 fun r _ => ?_
      rw [hbounds, isOutlier_none]
      simp
    simp only [detectStep, hj]
    rw [if_pos hd, hfilter]
  · have hmask : (df.colVals j).map (isOutlier (iqrBounds (df.colVals j))) =
        df.rows.map (fun _ => false) := by
      rw [hbounds, DataFrame.colVals, List.map_map]
      exact List.map_congr_left fun r _ => isOutlier_none _
    simp only [flagStep, hj]
    rw [if_pos hd, hmask]

/-- Witness for C6 at the all-missing frame. -/
theorem empty_column_silent_all_clear_witness :
    dfN.colIdx "v" = some 0 ∧
    dfN.dtypes.getD 0 false = true ∧
    numsOf (dfN.colVals 0) = [] ∧
    (quantile (numsOf (dfN.colVals 0)) (1/4) = none ∧
      detectStep dfN "v" = some [] ∧
      flagStep dfN "v" = .ok (dfN.rows.map (fun _ => false))) :=
  ⟨by decide, by decide, by decide,
    empty_column_silent_all_clear dfN "v" 0 (by decide) (by decide) (by decide)⟩

/-- C6 counterexample: on the all-missing column the public calls succeed
with an all-clear result instead of failing fast with an error. -/
theorem empty_column_no_error :
    detect_anomalies_iqr dfN ["v"] = .ok ⟨["v"], []⟩ ∧
    flag_anomalies dfN ["v"] = .ok [false, false] := by
  constructor
  · with_unfolding_all rfl
  · with_unfolding_all rfl

/-! ### C7 -/

/-- C7: for every feature column that is non-empty after removing missing
values, the quartiles exist and the fence satisfies
lower ≤ Q1 ≤ Q3 ≤ upper and upper - lower = 4 (Q3 - Q1). -/
theorem bounds_bracket_quartiles (vals : List Val) (h : numsOf vals ≠ []) :
    ∃ q₁ q₃ lb ub,
      quantile (numsOf vals) (1/4) = some q₁ ∧
      quantile (numsOf vals) (3/4) = some q₃ ∧
      iqrBounds vals = some (lb, ub) ∧
      lb ≤ q₁ ∧ q₁ ≤ q₃ ∧ q₃ ≤ ub ∧ ub - lb = 4 * (q₃ - q₁) := by
  have hi : ¬((numsOf vals).isEmpty = true) := by
    simp [List.isEmpty_iff, h]
  have h1 : quantile (numsOf vals) (1/4) =
      some (interpAt ((numsOf vals).insertionSort (· ≤ ·))
        (1/4 * (((numsOf vals).length : ℚ) - 1))) := by
    rw [quantile, if_neg hi]
  have h3 : quantile (numsOf vals) (3/4) =
      some (interpAt ((numsOf vals).insertionSort (· ≤ ·))
        (3/4 * (((numsOf vals).length : ℚ) - 1))) := by
    rw [quantile, if_neg hi]
  have hb : iqrBounds vals = some
      (interpAt ((numsOf vals).insertionSort (· ≤ ·))
          (1/4 * (((numsOf vals).length : ℚ) - 1)) -
        3/2 * (interpAt ((numsOf vals).insertionSort (· ≤ ·))
          (3/4 * (((numsOf vals).length : ℚ) - 1)) -
          interpAt ((numsOf vals).insertionSort (· ≤ ·))
          (1/4 * (((numsOf vals).length : ℚ) - 1))),
        interpAt ((numsOf vals).insertionSort (· ≤ ·))
          (3/4 * (((numsOf vals).length : ℚ) - 1)) +
        3/2 * (interpAt ((numsOf vals).insertionSort (· ≤ ·))
          (3/4 * (((numsOf vals).length : ℚ) - 1)) -
          interpAt ((numsOf vals).insertionSort (· ≤ ·))
          (1/4 * (((numsOf vals).length : ℚ) - 1)))) := by
    simp only [iqrBounds, h1, h3]
  have hle := quantile_le_quantile (numsOf vals) (by norm_num) (by norm_num)
    (by norm_num) h1 h3
  exact ⟨_, _, _, _, h1, h3, hb, by linarith, hle, by linarith, by ring⟩

/-- Witness for C7 at the concrete five-value column. -/
theorem bounds_bracket_quartiles_witness :
    numsOf [Val.num 1, .num 2, .num 3, .num 4, .num 100] ≠ [] ∧
    (∃ q₁ q₃ lb ub,
      quantile (numsOf [Val.num 1, .num 2, .num 3, .num 4, .num 100]) (1/4) = some q₁ ∧
      quantile (numsOf [Val.num 1, .num 2, .num 3, .num 4, .num 100]) (3/4) = some q₃ ∧
      iqrBounds [Val.num 1, .num 2, .num 3, .num 4, .num 100] = some (lb, ub) ∧
      lb ≤ q₁ ∧ q₁ ≤ q₃ ∧ q₃ ≤ ub ∧ ub - lb = 4 * (q₃ - q₁)) :=
  ⟨by decide, bounds_bracket_quartiles [Val.num 1, .num 2, .num 3, .num 4, .num 100]
    (by decide)⟩

/-! ### C8 -/

/-- C8: on a present numeric feature with fence (lb, ub), a row is
anomalous for that feature exactly when its value is strictly outside the
closed interval from lb to ub, in both detection and flagging; a value
equal to either bound is not anomalous. -/
theorem anomalous_iff_strictly_outside (df : DataFrame) (f : String) (j : Nat)
    (lb ub : ℚ) (hj : df.colIdx f = some j)
    (hd : df.dtypes.getD j false = true)
    (hb : iqrBounds (df.colVals j) = some (lb, ub)) :
    isOutlier (some (lb, ub)) (.num lb) = false ∧
    isOutlier (some (lb, ub)) (.num ub) = false ∧
    (∀ rs, detectStep df f = some rs →
      ∀ r ∈ df.rows, ∀ q : ℚ, r.getD j .nan = .num q →
        (r ∈ rs ↔ (q < lb ∨ ub < q))) ∧
    (∀ m, flagStep df f = .ok m →
      ∀ i, i < df.rows.length → ∀ q : ℚ,
        (df.rows.getD i []).getD j .nan = .num q →
        (m.getD i false = true ↔ (q < lb ∨ ub < q))) := by
  obtain ⟨q₁, q₃, _, _, hlb, hub, hq⟩ := iqrBounds_spec _ hb
  have hlbub : lb ≤ ub := by rw [hlb, hub]; linarith
  refine ⟨?_, ?_, ?_, ?_⟩
  · simp [isOutlier, not_lt.2 hlbub]
  · simp [isOutlier, not_lt.2 hlbub]
  · intro rs hrs r hr q hval
    obtain ⟨_, hrs_eq⟩ := detectStep_some_elim hj hrs
    subst hrs_eq
    simp only [List.mem_filter, hr, true_and, hb, hval, isOutlier_num_iff]
  · intro m hm i hi q hval
    obtain ⟨_, hm_eq⟩ := flagStep_ok_elim hj hm
    subst hm_eq
    have hlen : i < (df.colVals j).length := by
      simpa [DataFrame.colVals] using hi
    rw [getD_map_at _ _ hlen Val.nan false, hb, DataFrame.colVals,
      getD_map_at _ _ hi [] Val.nan, hval, isOutlier_num_iff]

/-- Witness for C8 at the frame with values 5, 5, 5, 5, 6: the fence
collapses to (5, 5) and the iff holds at every row. -/
theorem anomalous_iff_strictly_outside_witness :
    dfE.colIdx "v" = some 0 ∧
    dfE.dtypes.getD 0 false = true ∧
    iqrBounds (dfE.colVals 0) = some (5, 5) ∧
    (isOutlier (some ((5 : ℚ), (5 : ℚ))) (.num 5) = false ∧
      isOutlier (some ((5 : ℚ), (5 : ℚ))) (.num 5) = false ∧
      (∀ rs, detectStep dfE "v" = some rs →
        ∀ r ∈ dfE.rows, ∀ q : ℚ, r.getD 0 .nan = .num q →
          (r ∈ rs ↔ (q < 5 ∨ 5 < q))) ∧
      (∀ m, flagStep dfE "v" = .ok m →
        ∀ i, i < dfE.rows.length → ∀ q : ℚ,
          (dfE.rows.getD i []).getD 0 .nan = .num q →
          (m.getD i false = true ↔ (q < 5 ∨ 5 < q)))) :=
  ⟨by decide, by decide, by with_unfolding_all rfl,
    anomalous_iff_strictly_outside dfE "v" 0 5 5 (by decide) (by decide)
      (by with_unfolding_all rfl)⟩

/-! ### C10 -/

/-- C10: a missing value never makes a row anomalous: the outlier test is
false on a missing value under any bounds, missing values are excluded
from quartile computation, every row selected by a detection step holds a
present numeric value for the scanned feature, and the flagging mask is
false at every row whose value for the feature is missing. -/
theorem missing_values_never_anomalous (df : DataFrame) (f : String) (j : Nat)
    (hj : df.colIdx f = some j) :
    (∀ b, isOutlier b Val.nan = false) ∧
    (∀ l₁ l₂ : List Val, iqrBounds (l₁ ++ Val.nan :: l₂) = iqrBounds (l₁ ++ l₂)) ∧
    (∀ rs, detectStep df f = some rs → ∀ r ∈ rs, ∃ q, r.getD j .nan = Val.num q) ∧
    (∀ m, flagStep df f = .ok m → ∀ i, i < df.rows.length →
      (df.rows.getD i []).getD j .nan = Val.nan → m.getD i false = false) := by
  refine ⟨isOutlier_nan, ?_, ?_, ?_⟩
  · intro l₁ l₂
    have hcons : List.filterMap numOf (Val.nan :: l₂) = List.filterMap numOf l₂ := by
      simp [List.filterMap_cons, numOf]
    rw [iqrBounds, iqrBounds, numsOf, numsOf, List.filterMap_append,
      List.filterMap_append, hcons]
  · intro rs hrs r hr
    obtain ⟨_, hrs_eq⟩ := detectStep_some_elim hj hrs
    subst hrs_eq
    exact exists_num_of_isOutlier (List.mem_filter.1 hr).2
  · intro m hm i hi hval
    obtain ⟨_, hm_eq⟩ := flagStep_ok_elim hj hm
    subst hm_eq
    have hlen : i < (df.colVals j).length := by
      simpa [DataFrame.colVals] using hi
    rw [getD_map_at _ _ hlen Val.nan false, DataFrame.colVals,
      getD_map_at _ _ hi [] Val.nan, hval, isOutlier_nan]

/-- Witness for C10 at the all-missing frame. -/
theorem missing_values_never_anomalous_witness :
    dfN.colIdx "v" = some 0 ∧
    ((∀ b, isOutlier b Val.nan = false) ∧
      (∀ l₁ l₂ : List Val,
        iqrBounds (l₁ ++ Val.nan :: l₂) = iqrBounds (l₁ ++ l₂)) ∧
      (∀ rs, detectStep dfN "v" = some rs →
        ∀ r ∈ rs, ∃ q, r.getD 0 .nan = Val.num q) ∧
      (∀ m, flagStep dfN "v" = .ok m → ∀ i, i < dfN.rows.length →
        (dfN.rows.getD i []).getD 0 .nan = Val.nan →
          m.getD i false = false)) :=
  ⟨by decide, missing_values_never_anomalous dfN "v" 0 (by decide)⟩
